import Mathlib

/-!
Verification development for the `record-setter` library
(`src/record-setter.ts`), a table/record convenience layer over an
IndexedDB-style storage engine.  The stateful engine operations are
embedded as pure state-passing functions over lists of flat records;
asynchronous rejections are embedded as `Except` errors.
-/

namespace RecordSetter

/-- A JS scalar value storable by the library: `RecordProperty` is
`string | number | boolean | Blob`, and key/value data additionally admits
`null | undefined`.  Numbers are modelled as integers (every numeric
literal the claims exercise is integral); blobs never participate in any
claim and are omitted from the universe. -/
inductive Value where
  | str (s : String)
  | num (n : Int)
  | bool (b : Bool)
  | null
  | undefined
deriving DecidableEq

/-- A scalar IndexedDB key: only strings and numbers occur as keys in this
library (booleans, `null` and `undefined` are not valid keys and records
carrying them in an indexed field are simply absent from that index). -/
inductive SKey where
  | str (s : String)
  | num (n : Int)
deriving DecidableEq

/-- The IndexedDB key a value contributes, if any (`IDBKeyRange.only` /
`createObjectStore` throw `DataError` on the `none` cases). -/
def valueToKey : Value → Option SKey
  | .str s => some (.str s)
  | .num n => some (.num n)
  | _ => none

/-- Decimal digit-string parsing (the numeric part of JS `Number`),
accumulator style over the character list. -/
def parseDigitsAux (acc : Nat) : List Char → Option Nat
  | [] => some acc
  | c :: cs => if c.isDigit then parseDigitsAux (acc * 10 + (c.toNat - 48)) cs else none

/-- Parse a non-empty all-digit character list as a natural number. -/
def parseDigits : List Char → Option Nat
  | [] => none
  | l => parseDigitsAux 0 l

/-- JS `String.prototype.trim` at the character-list level. -/
def jsTrim (s : String) : List Char :=
  ((s.data.dropWhile Char.isWhitespace).reverse.dropWhile Char.isWhitespace).reverse

/-- JS `Number(string)` restricted to the integral universe: trims
whitespace, the empty string is `0`, otherwise parse an optionally signed
decimal integer; `none` plays the role of `NaN`. -/
def jsStringToNumber (s : String) : Option Int :=
  match jsTrim s with
  | [] => some 0
  | '-' :: ds => (parseDigits ds).map (fun n => -(n : Int))
  | '+' :: ds => (parseDigits ds).map (fun n => (n : Int))
  | ds => (parseDigits ds).map (fun n => (n : Int))

/-- JS `ToNumber` on the modelled universe; `none` is `NaN`. -/
def toNumber : Value → Option Int
  | .num n => some n
  | .bool b => some (if b then 1 else 0)
  | .str s => jsStringToNumber s
  | .null => some 0
  | .undefined => none

/-- JS loose equality `==` on the modelled universe: `null`/`undefined`
only equal each other; same-type comparisons are plain equality; mixed
string/number/boolean comparisons coerce both sides to number (a `NaN`
side makes the comparison false). -/
def looseEq : Value → Value → Bool
  | .undefined, .undefined => true
  | .undefined, .null => true
  | .null, .undefined => true
  | .null, .null => true
  | .undefined, _ => false
  | _, .undefined => false
  | .null, _ => false
  | _, .null => false
  | .str a, .str b => a = b
  | .num a, .num b => a = b
  | .bool a, .bool b => a = b
  | a, b =>
    match toNumber a, toNumber b with
    | some x, some y => x = y
    | _, _ => false

/-- JS `String.prototype.startsWith` at the character-list level. -/
def strStartsWith (s p : String) : Bool :=
  p.data.isPrefixOf s.data

/-- JS `String.prototype.endsWith` at the character-list level. -/
def strEndsWith (s p : String) : Bool :=
  p.data.isSuffixOf s.data

/-- JS `String.prototype.substring(n)` (drop the first `n` characters). -/
def strDrop (s : String) (n : Nat) : String :=
  ⟨s.data.drop n⟩

/-- JS `String.prototype.substring(n, length - m)` right-trimming part
(drop the last `m` characters). -/
def strDropRight (s : String) (m : Nat) : String :=
  ⟨s.data.take (s.data.length - m)⟩

/-- JS `String.prototype.split("+")` at the character-list level. -/
def splitOnPlusAux : List Char → List (List Char)
  | [] => [[]]
  | c :: cs =>
    let rest := splitOnPlusAux cs
    if c = '+' then [] :: rest
    else
      match rest with
      | [] => [[c]]
      | h :: t => (c :: h) :: t

/-- JS `"a+b".split("+") = ["a", "b"]`. -/
def splitOnPlus (s : String) : List String :=
  (splitOnPlusAux s.data).map String.mk

/-- JS `Array.prototype.join("+")`. -/
def joinPlus : List String → String
  | [] => ""
  | [k] => k
  | k :: rest => k ++ "+" ++ joinPlus rest

/-- A record is a flat mapping from field names to scalar values
(`DataRecord` and its extensions; the key/value rows of shape
`(key, value)` are records of the same kind). -/
abbrev Record := List (String × Value)

/-- JS property read `record[f]`: the value of the first binding of `f`,
or `undefined` when the property is absent. -/
def getField (r : Record) (f : String) : Value :=
  match r.find? (fun p => p.1 = f) with
  | some p => p.2
  | none => .undefined

/-- JS property write `record[f] = v`: overwrite an existing binding in
place, otherwise append a new one. -/
def setField (r : Record) (f : String) (v : Value) : Record :=
  if r.any (fun p => p.1 = f) then
    r.map (fun p => if p.1 = f then (f, v) else p)
  else
    r ++ [(f, v)]

/-- The primary key of a record under an object store's key path `kf`
(`"id"` for record stores, `"key"` for key/value stores). -/
def storeKey (kf : String) (r : Record) : Option SKey :=
  valueToKey (getField r kf)

/-- Engine `objectStore.put`: upsert by primary key (callers of this model
only put records whose key is valid). -/
def storePut (kf : String) (recs : List Record) (r : Record) : List Record :=
  if recs.any (fun x => storeKey kf x = storeKey kf r) then
    recs.map (fun x => if storeKey kf x = storeKey kf r then r else x)
  else
    recs ++ [r]

/-- Engine `objectStore.get`: point lookup by key; `none` is the
`undefined` result for an absent key. -/
def storeGet (kf : String) (recs : List Record) (k : SKey) : Option Record :=
  recs.find? (fun x => storeKey kf x = some k)

/-- Engine `objectStore.delete`: removes the record stored under `k`
(acknowledges successfully whether or not the key was present). -/
def storeDelete (kf : String) (recs : List Record) (k : SKey) : List Record :=
  recs.filter (fun x => ¬ storeKey kf x = some k)

/-- The ways the embedded operations reject: `dataError` (invalid key
handed to the engine), `indexNotFound` (`objectStore.index` on an unknown
name), `nullDeref` (a `TypeError` from dereferencing an absent record),
`typeError` (any other `TypeError`). -/
inductive Err where
  | dataError
  | indexNotFound
  | nullDeref
  | typeError
deriving DecidableEq

/-- An index key path as handed to `createIndex` / stored on an index: a
single field name, or an ordered field list for a composite index. -/
abbrev KeyPath := String ⊕ List String

/-- A predicate value in `query`'s equality predicate: a scalar, or an
array of candidate scalars. -/
inductive PredValue where
  | scalar (v : Value)
  | anyOf (vs : List Value)
deriving DecidableEq

/-- Look an index up by name among a store's indexes
(`objectStore.index(name)`; `none` models the thrown `NotFoundError`). -/
def lookupIndex (indexes : List (String × KeyPath)) (name : String) : Option KeyPath :=
  (indexes.find? (fun p => p.1 = name)).map Prod.snd

/-- One component of the seed key `IDBKeyRange.only(predicateValues)` built
on the combined-predicate path: a scalar predicate value contributes a
scalar key, an array value contributes a nested array key. -/
abbrev KElem := SKey ⊕ List SKey

/-- Convert one predicate value into its seed-key component; `none` models
the engine's `DataError` on an invalid key part. -/
def predValueToKElem : PredValue → Option KElem
  | .scalar v => (valueToKey v).map Sum.inl
  | .anyOf vs => (vs.mapM valueToKey).map Sum.inr

/-- IndexedDB key comparison of one seed component against one component
of a record's composite index key (which is always scalar, records being
flat): a nested array component never equals a scalar one. -/
def kelemEq (e : KElem) (k : SKey) : Bool :=
  match e with
  | .inl k' => k' = k
  | .inr _ => false

/-- Does the array seed key match a record's composite key. -/
def seekMatches (seek : List KElem) (l : List SKey) : Bool :=
  seek.length = l.length && (List.zip seek l).all (fun p => kelemEq p.1 p.2)

/-- The composite key of a record under a composite key path, if every
constituent field holds a valid key (otherwise the record is absent from
the composite index). -/
def compositeKeyOf (fs : List String) (r : Record) : Option (List SKey) :=
  match fs with
  | [] => some []
  | f :: rest =>
    match valueToKey (getField r f), compositeKeyOf rest r with
    | some k, some ks => some (k :: ks)
    | _, _ => none

/-- The whole array seed key `IDBKeyRange.only(predicateValues)` of the
combined-predicate path; `none` models the `DataError` rejection when some
component is not a valid key. -/
def seekOfPredValues : List PredValue → Option (List KElem)
  | [] => some []
  | v :: rest =>
    match predValueToKElem v, seekOfPredValues rest with
    | some e, some es => some (e :: es)
    | _, _ => none

/-- Cursor scan opened with `IDBKeyRange.only` over an array seed key
(combined-predicate path): over a composite index, the records whose
composite key matches the seed; over a scalar-keyed index an array seed
never matches anything. -/
def combinedScan (kp : KeyPath) (seek : List KElem) (recs : List Record) : List Record :=
  match kp with
  | .inl _ => []
  | .inr fs =>
    recs.filter (fun r =>
      match compositeKeyOf fs r with
      | some l => seekMatches seek l
      | none => false)

/-- Does a record carry the scalar key `k` under key path `kp` (cursor
seeded with `IDBKeyRange.only` over a scalar): over a composite index a
scalar seed never matches the array keys. -/
def scalarKeyMatch (kp : KeyPath) (r : Record) (k : SKey) : Bool :=
  match kp with
  | .inl f => valueToKey (getField r f) = some k
  | .inr _ => false

/-- Is a record present in the index with key path `kp` at all (an
unseeded cursor visits exactly the records with a valid index key). -/
def keyPresent (kp : KeyPath) (r : Record) : Bool :=
  match kp with
  | .inl f => (valueToKey (getField r f)).isSome
  | .inr fs => (compositeKeyOf fs r).isSome

/-- The in-memory residual predicate check of `query`'s cursor callback,
over the predicate entries not already satisfied by the seed range: an
array value matches when the record's field loosely equals some candidate,
a scalar value matches when the field loosely equals it (the source's
first-difference short-circuit computes the same conjunction). -/
def residualOk (r : Record) (checks : List (String × PredValue)) : Bool :=
  checks.all (fun c =>
    match c.2 with
    | .anyOf vs => vs.any (fun m => looseEq (getField r c.1) m)
    | .scalar v => looseEq (getField r c.1) v)

/-- Stable insertion sort by a boolean "less or equal" relation, modelling
the engine's stable `Array.prototype.toSorted`. -/
def sortByLe (le : Record → Record → Bool) : List Record → List Record
  | [] => []
  | r :: rest => insertLe le r (sortByLe le rest)
where
  /-- Insert into an already sorted list, keeping earlier elements first
  among ties. -/
  insertLe (le : Record → Record → Bool) (r : Record) : List Record → List Record
    | [] => [r]
    | x :: xs => if le x r then x :: insertLe le r xs else r :: x :: xs

/-- The final sort step of `query`: with a sort key, sort by the numeric
subtraction comparator `a[sortKey] - b[sortKey]`; a `NaN` comparison makes
the engine order unspecified and is modelled as `0` (tie). No claim
exercises the sorted path. -/
def finishSort (sortKey : Option String) (results : List Record) : List Record :=
  match sortKey with
  | none => results
  | some f =>
    sortByLe (fun a b =>
      ((toNumber (getField a f)).getD 0 : Int) ≤ (toNumber (getField b f)).getD 0) results

/-- `RecordStore.query` (src/record-setter.ts:115-219), embedded against a
store with records `recs` and secondary indexes `indexes`.  With more than
one predicate entry it first attempts the composite index named by the
`+`-join of all predicate fields, silently falling back on failure;
otherwise (or on fallback) it resolves the first field's index (the object
store itself for `id`), seeds an exact-match cursor for a scalar first
value (skipping that field in the residual check) or an unseeded cursor
for an array first value, residual-filters, and optionally sorts. -/
def query (indexes : List (String × KeyPath)) (recs : List Record)
    (pred : List (String × PredValue)) (sortKey : Option String) :
    Except Err (List Record) :=
  match pred with
  | [] => .error .indexNotFound
  | (k0, v0) :: rest =>
    let combined : Option KeyPath :=
      if rest.isEmpty then none
      else lookupIndex indexes (joinPlus (pred.map Prod.fst))
    match combined with
    | some kp =>
      match seekOfPredValues (pred.map Prod.snd) with
      | none => .error .dataError
      | some seek =>
        .ok (finishSort sortKey ((combinedScan kp seek recs).filter (fun r => residualOk r rest)))
    | none =>
      match (if k0 = "id" then some (Sum.inl "id") else lookupIndex indexes k0) with
      | none => .error .indexNotFound
      | some kp =>
        match v0 with
        | .anyOf _ =>
          .ok (finishSort sortKey
            ((recs.filter (fun r => keyPresent kp r)).filter (fun r => residualOk r pred)))
        | .scalar v =>
          match valueToKey v with
          | none => .error .dataError
          | some k =>
            .ok (finishSort sortKey
              ((recs.filter (fun r => scalarKeyMatch kp r k)).filter (fun r => residualOk r rest)))

/-- `RecordStore.getRecord` (src/record-setter.ts:51-66): point lookup by
the string id; `none` is the `undefined`/`null` resolution for an absent
id. -/
def getRecord (recs : List Record) (id : String) : Option Record :=
  storeGet "id" recs (.str id)

/-- `RecordStore.getRecords` (src/record-setter.ts:67-94) without a sort
key (no claim's call path passes one): one point lookup per id, an absent
id yielding an `undefined` entry. -/
def getRecords (recs : List Record) (ids : List String) : List (Option Record) :=
  ids.map (getRecord recs)

/-- `RecordStore.updateRecord` (src/record-setter.ts:221-241): `put` the
record, then immediately `get` it back by the key the put resolved with,
resolving with that freshly read copy.  A record whose id is not a valid
key makes the put reject with `DataError`. -/
def updateRecord (recs : List Record) (r : Record) :
    Except Err (Option Record × List Record) :=
  match storeKey "id" r with
  | none => .error .dataError
  | some k =>
    let recs' := storePut "id" recs r
    .ok (storeGet "id" recs' k, recs')

/-- The keys resulting from putting each of `rs` (each put resolves the
record's primary key; an invalid key rejects the batch). -/
def recordKeys : List Record → Option (List SKey)
  | [] => some []
  | r :: rest =>
    match storeKey "id" r, recordKeys rest with
    | some k, some ks => some (k :: ks)
    | _, _ => none

/-- `RecordStore.updateRecords` (src/record-setter.ts:242-265): put every
record in one transaction, collect the resulting keys, then re-read them
all.  (On an invalid key the whole call rejects; no claim reaches that
case with writes partially issued.) -/
def updateRecords (recs : List Record) (rs : List Record) :
    Except Err (List (Option Record) × List Record) :=
  match recordKeys rs with
  | none => .error .dataError
  | some ks =>
    let recs' := rs.foldl (storePut "id") recs
    .ok (ks.map (storeGet "id" recs'), recs')

/-- `RecordStore.setIsDeletedSingle` (src/record-setter.ts:331-337): read
the target, assign the configured timestamp property (`Date.now()` — the
`now` parameter — when marking deleted, `undefined` when restoring), write
it back, return `true`.  When the id is absent the property assignment
dereferences `null` and the call rejects. -/
def setIsDeletedSingle (recs : List Record) (prop : String) (now : Int)
    (id : String) (value : Bool) : Except Err (Bool × List Record) :=
  match getRecord recs id with
  | none => .error .nullDeref
  | some target =>
    let target' := setField target prop (if value then .num now else .undefined)
    match updateRecord recs target' with
    | .error e => .error e
    | .ok (_, recs') => .ok (true, recs')

/-- JS `Array.prototype.fill(v, start, fin)`: overwrites the slots from
`start` up to `fin` that already exist — it never grows the array. -/
def jsFill (arr : List Bool) (v : Bool) (start fin : Nat) : List Bool :=
  (arr.enum).map (fun p => if start ≤ p.1 ∧ p.1 < fin then v else p.2)

/-- `Promise.all` of point lookups, rejecting when the assignment loop
dereferences an `undefined` entry. -/
def allSome : List (Option Record) → Option (List Record)
  | [] => some []
  | some r :: rest => (allSome rest).map (fun l => r :: l)
  | none :: _ => none

/-- `RecordStore.setIsDeletedMultiple` (src/record-setter.ts:338-347):
read all targets (an absent id makes the property-assignment loop reject
before anything is written), stamp each, write them back, and return
`new Array().fill(true, 0, targets.length - 1)` — a fill over an empty
array. -/
def setIsDeletedMultiple (recs : List Record) (prop : String) (now : Int)
    (ids : List String) (value : Bool) : Except Err (List Bool × List Record) :=
  match allSome (getRecords recs ids) with
  | none => .error .nullDeref
  | some targets =>
    let targets' := targets.map (fun t => setField t prop (if value then .num now else .undefined))
    match updateRecords recs targets' with
    | .error e => .error e
    | .ok (_, recs') => .ok (jsFill [] true 0 (targets'.length - 1), recs')

/-- `RecordStore.restoreRecord` (src/record-setter.ts:328). -/
def restoreRecord (recs : List Record) (prop : String) (now : Int) (id : String) :
    Except Err (Bool × List Record) :=
  setIsDeletedSingle recs prop now id false

/-- `RecordStore.removeRecord` (src/record-setter.ts:267-285): re-routed
to mark-deleted on a soft-delete store unless overridden; the physical
path issues an engine delete and resolves with the delete request's result
(which is `undefined`). -/
def removeRecord (recs : List Record) (useSoftDelete : Bool) (prop : String)
    (now : Int) (id : String) (overrideSoftDelete : Bool) :
    Except Err (Value × List Record) :=
  if ¬ overrideSoftDelete ∧ useSoftDelete then
    match setIsDeletedSingle recs prop now id true with
    | .error e => .error e
    | .ok (b, recs') => .ok (.bool b, recs')
  else
    .ok (.undefined, storeDelete "id" recs (.str id))

/-- The serial continuation chain inside `RecordStore.removeRecords`
(src/record-setter.ts:301-316): resolve once the index walks past the last
id, otherwise delete `ids[index]`, push a `true` success flag on that
deletion's acknowledgment, and only then start the deletion at
`index + 1` on the same transaction. -/
def removeRecordChain (ids : List String) (recs : List Record) (index : Nat) :
    List Bool × List Record :=
  if ids.length ≤ index then ([], recs)
  else
    let recs' := storeDelete "id" recs (.str (ids.getD index ""))
    let step := removeRecordChain ids recs' (index + 1)
    (true :: step.1, step.2)
termination_by ids.length - index

/-- `RecordStore.removeRecords` (src/record-setter.ts:286-326): re-routed
to mark-deleted on a soft-delete store unless overridden; otherwise the
strictly sequential physical delete chain starting at index `0`. -/
def removeRecords (recs : List Record) (useSoftDelete : Bool) (prop : String)
    (now : Int) (ids : List String) (overrideSoftDelete : Bool) :
    Except Err (List Bool × List Record) :=
  if ¬ overrideSoftDelete ∧ useSoftDelete then
    setIsDeletedMultiple recs prop now ids true
  else
    .ok (removeRecordChain ids recs 0)

/-- An index definition accumulated by `RecordSetter.createStorePromise`
(src/record-setter.ts:453-475) from one schema token. -/
structure IndexDefinition where
  name : String
  keyPath : KeyPath
  unique : Bool
deriving DecidableEq

/-- Parse one schema index token (src/record-setter.ts:456-475): a `!`
marker strips itself from the name and sets `unique` (the `keyPath`
initialiser is left untouched); a bracketed token strips the brackets for
the name and splits the content on `+` for an array key path; anything
else is a plain simple index. -/
def parseIndexToken (key : String) : IndexDefinition :=
  if strStartsWith key "!" then
    { name := strDrop key 1, keyPath := .inl key, unique := true }
  else if strStartsWith key "[" && strEndsWith key "]" then
    let name := strDropRight (strDrop key 1) 1
    { name := name, keyPath := .inr (splitOnPlus name), unique := false }
  else
    { name := key, keyPath := .inl key, unique := false }

/-- An index as actually created on the object store by `createIndex`. -/
structure CreatedIndex where
  name : String
  keyPath : KeyPath
  unique : Bool
  multiEntry : Bool
deriving DecidableEq

/-- The secondary indexes `RecordSetter.createStorePromise`
(src/record-setter.ts:478-507) creates from the tokens after the first:
each definition becomes an index under its parsed name and key path
(`multiEntry` exactly when the key path is not an array), and an array key
path additionally creates one single-field index per constituent, the `!`
marker stripped and honored there. -/
def createStoreIndexes (indexesArray : List String) : List CreatedIndex :=
  ((indexesArray.map parseIndexToken).drop 1).flatMap (fun d =>
    { name := d.name, keyPath := d.keyPath, unique := d.unique,
      multiEntry := ¬ (Sum.isRight d.keyPath) } ::
    (match d.keyPath with
     | .inl _ => []
     | .inr fs => fs.map (fun f =>
        let isUnique := strStartsWith f "!"
        let pathName := if isUnique then strDrop f 1 else f
        { name := pathName, keyPath := .inl pathName, unique := isUnique,
          multiEntry := true })))

/-- The primary key path of the created object store: the key path of the
first parsed token (src/record-setter.ts:479). -/
def createStoreKeyPath (indexesArray : List String) : KeyPath :=
  (parseIndexToken (indexesArray.headD "")).keyPath

/-- `RecordSetter.setData` (src/record-setter.ts:671-689) on the rows of a
`keyPath: "key"` store: a value loosely equal to `undefined` (that is,
`undefined` or `null`) turns the call into a delete of the key; otherwise
a row of shape `(key, value)` is put. -/
def setData (recs : List Record) (key : Value) (value : Value) :
    Except Err (List Record) :=
  match valueToKey key with
  | none => .error .dataError
  | some k =>
    if looseEq value .undefined then
      .ok (storeDelete "key" recs k)
    else
      .ok (storePut "key" recs [("key", key), ("value", value)])

/-- `RecordSetter.getData` (src/record-setter.ts:629-647): point lookup of
the row stored under `key`; an absent row resolves `null` (`none` here),
a present row resolves its `value` property. -/
def getData (recs : List Record) (key : Value) : Except Err (Option Value) :=
  match valueToKey key with
  | none => .error .dataError
  | some k => .ok ((storeGet "key" recs k).map (fun r => getField r "value"))

/-- IndexedDB key comparison of a stored scalar key against the array key
that `objectStore.get(keys)` builds from a string list: keys of different
types never compare equal, so this is constantly false. -/
def scalarKeyEqualsArrayKey (_k : Option SKey) (_keys : List String) : Bool :=
  false

/-- `RecordSetter.getKeys` (src/record-setter.ts:743-760): with no
explicit keys, `getAll` and project each row's `key` property; with
explicit keys, a single point `get` using the whole list as one array key
(which never matches a scalar-keyed row, resolving `[]`; a match would
call `.map` on a single object and throw). -/
def getKeys (recs : List Record) (keys : List String) : Except Err (List Value) :=
  if keys.isEmpty then
    .ok (recs.map (fun item => getField item "key"))
  else
    match recs.find? (fun r => scalarKeyEqualsArrayKey (storeKey "key" r) keys) with
    | none => .ok []
    | some _ => .error .typeError

/-- `RecordSetter.setKeys` (src/record-setter.ts:780-804): put a
`(key)`-shaped row per key (each put resolving with that key), then
resolve with `getKeys(storeName, ...results)` over the collected keys. -/
def setKeys (recs : List Record) (keys : List String) :
    Except Err (List Value) × List Record :=
  let recs' := keys.foldl (fun acc k => storePut "key" acc [("key", Value.str k)]) recs
  (getKeys recs' keys, recs')

/-! Helper lemmas about the engine primitives. -/

/-- Key-valid values contributing equal keys are equal values (IndexedDB
key equality is type-sensitive). -/
theorem valueToKey_inj (a b : Value) (k : SKey)
    (h1 : valueToKey a = some k) (h2 : valueToKey b = some k) : a = b := by
  cases a <;> simp [valueToKey] at h1 <;> subst h1 <;>
    cases b <;> simp [valueToKey] at h2 <;> simp [h2]

/-- Two values contributing the same IndexedDB key are loosely equal
(key equality is type-sensitive, so they are in fact the same value). -/
theorem looseEq_of_valueToKey_eq (a b : Value) (k : SKey)
    (h1 : valueToKey a = some k) (h2 : valueToKey b = some k) :
    looseEq a b = true := by
  have hb := valueToKey_inj a b k h1 h2
  subst hb
  cases a <;> simp_all [valueToKey, looseEq]

theorem getField_nil (g : String) : getField ([] : Record) g = .undefined := rfl

theorem getField_cons_pos (p : String × Value) (ps : Record) (g : String)
    (h : p.1 = g) : getField (p :: ps) g = p.2 := by
  unfold getField
  rw [List.find?_cons_of_pos _ (by simpa using h)]

theorem getField_cons_neg (p : String × Value) (ps : Record) (g : String)
    (h : ¬ p.1 = g) : getField (p :: ps) g = getField ps g := by
  unfold getField
  rw [List.find?_cons_of_neg _ (by simpa using h)]

theorem find?_map_put (kf : String) (r : Record) (k : SKey)
    (h : storeKey kf r = some k) :
    ∀ recs : List Record, recs.any (fun x => storeKey kf x = storeKey kf r) = true →
      (recs.map (fun x => if storeKey kf x = storeKey kf r then r else x)).find?
          (fun x => storeKey kf x = some k) = some r := by
  intro recs hany
  induction recs with
  | nil => simp at hany
  | cons x xs ih =>
    simp only [List.any_cons, Bool.or_eq_true, decide_eq_true_eq] at hany
    by_cases hx : storeKey kf x = storeKey kf r
    · simp [hx, List.find?_cons_of_pos, h]
    · have hxk : ¬ storeKey kf x = some k := fun hc => hx (hc.trans h.symm)
      have htail : xs.any (fun x => storeKey kf x = storeKey kf r) = true := by
        rcases hany with h' | h'
        · exact absurd h' hx
        · exact List.any_eq_true.mpr (by simpa using h')
      simpa [hx, List.find?_cons_of_neg, hxk] using ih htail

theorem find?_append_put (kf : String) (r : Record) (k : SKey)
    (h : storeKey kf r = some k) :
    ∀ recs : List Record, recs.any (fun x => storeKey kf x = storeKey kf r) = false →
      (recs ++ [r]).find? (fun x => storeKey kf x = some k) = some r := by
  intro recs hany
  induction recs with
  | nil => simp [List.find?_cons_of_pos, h]
  | cons x xs ih =>
    simp only [List.any_cons, Bool.or_eq_false_iff, decide_eq_false_iff_not] at hany
    have hxk : ¬ storeKey kf x = some k := fun hc => hany.1 (hc.trans h.symm)
    have := ih (by simpa using hany.2)
    simpa [List.cons_append, List.find?_cons_of_neg, hxk] using this

/-- A put followed by a get of the written key reads back exactly the
written record. -/
theorem storeGet_storePut_self (kf : String) (recs : List Record) (r : Record)
    (k : SKey) (h : storeKey kf r = some k) :
    storeGet kf (storePut kf recs r) k = some r := by
  unfold storeGet storePut
  by_cases hany : recs.any (fun x => storeKey kf x = storeKey kf r) = true
  · rw [if_pos hany]
    exact find?_map_put kf r k h recs hany
  · rw [if_neg hany]
    exact find?_append_put kf r k h recs (Bool.eq_false_iff.mpr hany)

/-- A get of a just-deleted key resolves absent. -/
theorem storeGet_storeDelete_self (kf : String) (recs : List Record) (k : SKey) :
    storeGet kf (storeDelete kf recs k) k = none := by
  unfold storeGet storeDelete
  rw [List.find?_eq_none]
  intro x hx
  have := (List.mem_filter.mp hx).2
  simpa using this

/-- A key absent from the store stays absent across any delete. -/
theorem storeGet_storeDelete_none (kf : String) (recs : List Record) (k k' : SKey)
    (h : storeGet kf recs k = none) :
    storeGet kf (storeDelete kf recs k') k = none := by
  unfold storeGet storeDelete at *
  rw [List.find?_eq_none] at h ⊢
  intro x hx
  exact h x (List.mem_filter.mp hx).1

theorem getField_map_overwrite (f g : String) (v : Value) (hg : g ≠ f) :
    ∀ r : List (String × Value),
      getField (r.map (fun p => if p.1 = f then (f, v) else p)) g = getField r g := by
  intro r
  induction r with
  | nil => rfl
  | cons p ps ih =>
    simp only [List.map_cons]
    by_cases hp : p.1 = f
    · rw [if_pos hp]
      rw [getField_cons_neg _ _ _ (fun hc : f = g => hg hc.symm)]
      rw [getField_cons_neg _ _ _ (fun hc : p.1 = g => hg (hc ▸ hp))]
      exact ih
    · rw [if_neg hp]
      by_cases hpg : p.1 = g
      · rw [getField_cons_pos _ _ _ hpg, getField_cons_pos _ _ _ hpg]
      · rw [getField_cons_neg _ _ _ hpg, getField_cons_neg _ _ _ hpg]
        exact ih

theorem getField_append_single (f g : String) (v : Value) (hg : g ≠ f) :
    ∀ r : List (String × Value), getField (r ++ [(f, v)]) g = getField r g := by
  intro r
  induction r with
  | nil =>
    rw [List.nil_append, getField_cons_neg _ _ _ (fun hc : f = g => hg hc.symm)]
  | cons p ps ih =>
    rw [List.cons_append]
    by_cases hpg : p.1 = g
    · rw [getField_cons_pos _ _ _ hpg, getField_cons_pos _ _ _ hpg]
    · rw [getField_cons_neg _ _ _ hpg, getField_cons_neg _ _ _ hpg]
      exact ih

/-- JS property write/read: reading another property is unaffected. -/
theorem getField_setField_ne (r : Record) (f g : String) (v : Value) (hg : g ≠ f) :
    getField (setField r f v) g = getField r g := by
  unfold setField
  by_cases hany : r.any (fun p => p.1 = f) = true
  · rw [if_pos hany]; exact getField_map_overwrite f g v hg r
  · rw [if_neg hany]; exact getField_append_single f g v hg r

theorem getField_map_overwrite_self (f : String) (v : Value) :
    ∀ r : List (String × Value), r.any (fun p => p.1 = f) = true →
      getField (r.map (fun p => if p.1 = f then (f, v) else p)) f = v := by
  intro r hany
  induction r with
  | nil => simp at hany
  | cons p ps ih =>
    simp only [List.any_cons, Bool.or_eq_true, decide_eq_true_eq] at hany
    simp only [List.map_cons]
    by_cases hp : p.1 = f
    · rw [if_pos hp, getField_cons_pos _ _ _ rfl]
    · rw [if_neg hp, getField_cons_neg _ _ _ hp]
      have htail : ps.any (fun p => p.1 = f) = true := by
        rcases hany with h' | h'
        · exact absurd h' hp
        · exact List.any_eq_true.mpr (by simpa using h')
      exact ih htail

theorem getField_append_single_self (f : String) (v : Value) :
    ∀ r : List (String × Value), r.any (fun p => p.1 = f) = false →
      getField (r ++ [(f, v)]) f = v := by
  intro r hany
  induction r with
  | nil => rw [List.nil_append, getField_cons_pos _ _ _ rfl]
  | cons p ps ih =>
    simp only [List.any_cons, Bool.or_eq_false_iff, decide_eq_false_iff_not] at hany
    rw [List.cons_append, getField_cons_neg _ _ _ hany.1]
    exact ih (by simpa using hany.2)

/-- JS property write/read: reading the written property gives the written
value. -/
theorem getField_setField_self (r : Record) (f : String) (v : Value) :
    getField (setField r f v) f = v := by
  unfold setField
  by_cases hany : r.any (fun p => p.1 = f) = true
  · rw [if_pos hany]; exact getField_map_overwrite_self f v r hany
  · rw [if_neg hany]
    exact getField_append_single_self f v r (Bool.eq_false_iff.mpr hany)

/-- A record absent before the serial delete chain stays absent after it. -/
theorem removeRecordChain_absent (n : Nat) :
    ∀ (ids : List String) (recs : List Record) (index : Nat) (id : String),
      ids.length - index = n → getRecord recs id = none →
      getRecord (removeRecordChain ids recs index).2 id = none := by
  induction n with
  | zero =>
    intro ids recs index id hn h
    rw [removeRecordChain, if_pos (Nat.sub_eq_zero_iff_le.mp hn)]
    exact h
  | succ m ih =>
    intro ids recs index id hn h
    have hlt : ¬ ids.length ≤ index := by omega
    rw [removeRecordChain, if_neg hlt]
    exact ih ids _ (index + 1) id (by omega)
      (storeGet_storeDelete_none "id" recs (.str id) _ h)

/-- The serial delete chain from `index` collects one `true` flag per
remaining id and leaves every remaining id unretrievable. -/
theorem removeRecordChain_spec (n : Nat) :
    ∀ (ids : List String) (recs : List Record) (index : Nat),
      ids.length - index = n →
      (removeRecordChain ids recs index).1 = List.replicate n true ∧
      ∀ id ∈ ids.drop index, getRecord (removeRecordChain ids recs index).2 id = none := by
  induction n with
  | zero =>
    intro ids recs index hn
    rw [removeRecordChain, if_pos (Nat.sub_eq_zero_iff_le.mp hn)]
    exact ⟨rfl, by rw [List.drop_eq_nil_of_le (Nat.sub_eq_zero_iff_le.mp hn)]; simp⟩
  | succ m ih =>
    intro ids recs index hn
    have hlt : index < ids.length := by omega
    have hle : ¬ ids.length ≤ index := by omega
    rw [removeRecordChain, if_neg hle]
    have hstep := ih ids (storeDelete "id" recs (.str (ids.getD index ""))) (index + 1) (by omega)
    refine ⟨by rw [List.replicate_succ]; exact congrArg _ hstep.1, ?_⟩
    intro id hid
    rw [List.drop_eq_getElem_cons hlt] at hid
    rcases List.mem_cons.mp hid with hid | hid
    · subst hid
      have hgetd : ids.getD index "" = ids[index] := by
        simp [List.getD, List.getElem?_eq_getElem hlt]
      exact removeRecordChain_absent m ids _ (index + 1) _ (by omega)
        (by rw [← hgetd]; exact storeGet_storeDelete_self "id" recs _)
    · exact hstep.2 id hid

/-! Claim theorems. -/

/-- C3: for every record `R` whose id is the string `s`, `update(R)` puts
`R` and resolves with the copy freshly read back by the key the put
returned, and that copy is `R` itself; a subsequent `get` by `R`'s id
returns a record deep-equal to `R` (round-trip law). -/
theorem update_roundtrip (recs : List Record) (R : Record) (s : String)
    (h : getField R "id" = .str s) :
    updateRecord recs R = .ok (some R, storePut "id" recs R) ∧
    getRecord (storePut "id" recs R) s = some R := by
  have hkey : storeKey "id" R = some (.str s) := by
    unfold storeKey
    rw [h]
    rfl
  have hget : storeGet "id" (storePut "id" recs R) (.str s) = some R :=
    storeGet_storePut_self "id" recs R (.str s) hkey
  constructor
  · unfold updateRecord
    rw [hkey]
    simpa using hget
  · exact hget

/-- Witness for `update_roundtrip` at a concrete record and store. -/
theorem update_roundtrip_witness :
    updateRecord [] [("id", Value.str "x"), ("n", Value.num 3)]
      = .ok (some [("id", Value.str "x"), ("n", Value.num 3)],
             storePut "id" [] [("id", Value.str "x"), ("n", Value.num 3)]) ∧
    getRecord (storePut "id" [] [("id", Value.str "x"), ("n", Value.num 3)]) "x"
      = some [("id", Value.str "x"), ("n", Value.num 3)] :=
  update_roundtrip [] [("id", Value.str "x"), ("n", Value.num 3)] "x" (by rfl)

/-- C4: on a non-soft-delete store (or with the override), `removeMany`
runs the strictly serial physical delete chain from index `0`, resolves
with one `true` success flag per id once every id has been processed, and
afterwards none of the ids is retrievable via `get`. -/
theorem removeMany_physical (recs : List Record) (ids : List String)
    (useSoftDelete : Bool) (prop : String) (now : Int) (override : Bool)
    (h : useSoftDelete = false ∨ override = true) :
    ∃ final,
      removeRecords recs useSoftDelete prop now ids override
        = .ok (List.replicate ids.length true, final) ∧
      ∀ id ∈ ids, getRecord final id = none := by
  have hcond : ¬ (¬ override = true ∧ useSoftDelete = true) := by
    rcases h with h | h <;> simp [h]
  refine ⟨(removeRecordChain ids recs 0).2, ?_, ?_⟩
  · unfold removeRecords
    rw [if_neg hcond]
    have hfl := (removeRecordChain_spec (ids.length - 0) ids recs 0 rfl).1
    rw [Nat.sub_zero] at hfl
    rw [← hfl]
  · intro id hid
    exact (removeRecordChain_spec (ids.length - 0) ids recs 0 rfl).2 id (by simpa using hid)

/-- Witness for `removeMany_physical` at a concrete store and id list. -/
theorem removeMany_physical_witness :
    ∃ final,
      removeRecords [[("id", Value.str "a")], [("id", Value.str "b")], [("id", Value.str "c")]]
          false "deletedTimestamp" 0 ["a", "b", "c"] false
        = .ok (List.replicate (["a", "b", "c"] : List String).length true, final) ∧
      ∀ id ∈ (["a", "b", "c"] : List String), getRecord final id = none :=
  removeMany_physical [[("id", Value.str "a")], [("id", Value.str "b")], [("id", Value.str "c")]]
    ["a", "b", "c"] false "deletedTimestamp" 0 false (Or.inl rfl)

/-- C10: on a soft-delete store, `remove(id)` of an id that is not present
rejects (the mark-deleted path assigns a property on the absent record,
a null dereference) instead of resolving with a `false` success flag. -/
theorem remove_missing_rejects (recs : List Record) (prop : String) (now : Int)
    (id : String) (h : getRecord recs id = none) :
    removeRecord recs true prop now id false = .error .nullDeref := by
  unfold removeRecord
  rw [if_pos (by simp)]
  unfold setIsDeletedSingle
  rw [h]

/-- Witness for `remove_missing_rejects` on an empty store. -/
theorem remove_missing_rejects_witness :
    removeRecord [] true "deletedTimestamp" 42 "ghost" false = .error .nullDeref :=
  remove_missing_rejects [] "deletedTimestamp" 42 "ghost" rfl

/-- The record a `get` resolves carries the looked-up key. -/
theorem getRecord_some_key (recs : List Record) (id : String) (t : Record)
    (ht : getRecord recs id = some t) : storeKey "id" t = some (.str id) := by
  unfold getRecord storeGet at ht
  have := List.find?_some ht
  simpa using this

/-- C5: on a soft-delete store holding a record `t` under `id`:
`remove(id)` resolves `true` and leaves the record retrievable with its
configured deletion-timestamp property set to the numeric current time;
`restore(id)` resolves `true` and leaves the record retrievable with that
property absent (`undefined`); `remove(id, true)` physically deletes so a
subsequent `get(id)` resolves absent. -/
theorem softDelete_marks_restores_overrides (recs : List Record) (prop : String)
    (now now2 : Int) (id : String) (t : Record)
    (hprop : prop ≠ "id") (ht : getRecord recs id = some t) :
    (removeRecord recs true prop now id false
        = .ok (.bool true, storePut "id" recs (setField t prop (.num now))) ∧
      getRecord (storePut "id" recs (setField t prop (.num now))) id
        = some (setField t prop (.num now)) ∧
      getField (setField t prop (.num now)) prop = .num now) ∧
    (restoreRecord recs prop now2 id
        = .ok (true, storePut "id" recs (setField t prop .undefined)) ∧
      getRecord (storePut "id" recs (setField t prop .undefined)) id
        = some (setField t prop .undefined) ∧
      getField (setField t prop .undefined) prop = .undefined) ∧
    (removeRecord recs true prop now id true
        = .ok (.undefined, storeDelete "id" recs (.str id)) ∧
      getRecord (storeDelete "id" recs (.str id)) id = none) := by
  have hpt : storeKey "id" t = some (.str id) := getRecord_some_key recs id t ht
  have hkey : ∀ v, storeKey "id" (setField t prop v) = some (.str id) := by
    intro v
    unfold storeKey at *
    rw [getField_setField_ne t prop "id" v (Ne.symm hprop)]
    exact hpt
  refine ⟨⟨?_, ?_, getField_setField_self t prop (.num now)⟩,
          ⟨?_, ?_, getField_setField_self t prop .undefined⟩, ⟨?_, ?_⟩⟩
  · simp [removeRecord, setIsDeletedSingle, updateRecord, ht, hkey]
  · exact storeGet_storePut_self "id" recs _ _ (hkey (.num now))
  · simp [restoreRecord, setIsDeletedSingle, updateRecord, ht, hkey]
  · exact storeGet_storePut_self "id" recs _ _ (hkey .undefined)
  · unfold removeRecord
    rw [if_neg (by simp)]
  · exact storeGet_storeDelete_self "id" recs (.str id)

/-- Witness for `softDelete_marks_restores_overrides` at a concrete
single-record store. -/
theorem softDelete_marks_restores_overrides_witness :
    (removeRecord [[("id", Value.str "a")]] true "deletedTimestamp" 100 "a" false
        = .ok (.bool true,
            storePut "id" [[("id", Value.str "a")]]
              (setField [("id", Value.str "a")] "deletedTimestamp" (.num 100))) ∧
      getRecord (storePut "id" [[("id", Value.str "a")]]
            (setField [("id", Value.str "a")] "deletedTimestamp" (.num 100))) "a"
        = some (setField [("id", Value.str "a")] "deletedTimestamp" (.num 100)) ∧
      getField (setField [("id", Value.str "a")] "deletedTimestamp" (.num 100))
          "deletedTimestamp" = .num 100) ∧
    (restoreRecord [[("id", Value.str "a")]] "deletedTimestamp" 200 "a"
        = .ok (true,
            storePut "id" [[("id", Value.str "a")]]
              (setField [("id", Value.str "a")] "deletedTimestamp" .undefined)) ∧
      getRecord (storePut "id" [[("id", Value.str "a")]]
            (setField [("id", Value.str "a")] "deletedTimestamp" .undefined)) "a"
        = some (setField [("id", Value.str "a")] "deletedTimestamp" .undefined) ∧
      getField (setField [("id", Value.str "a")] "deletedTimestamp" .undefined)
          "deletedTimestamp" = .undefined) ∧
    (removeRecord [[("id", Value.str "a")]] true "deletedTimestamp" 100 "a" true
        = .ok (.undefined, storeDelete "id" [[("id", Value.str "a")]] (.str "a")) ∧
      getRecord (storeDelete "id" [[("id", Value.str "a")]] (.str "a")) "a" = none) :=
  softDelete_marks_restores_overrides [[("id", Value.str "a")]] "deletedTimestamp"
    100 200 "a" [("id", Value.str "a")] (by decide) (by rfl)

/-- C8: `setData` of a defined value followed by `getData` of the same key
resolves that value, and `setData` of `undefined` is literally a delete of
the key, after which `getData` resolves absent (delete-on-undefined
law). -/
theorem setData_getData_roundtrip (recs : List Record) (key : String) (v : Value)
    (hv : looseEq v .undefined = false) :
    (setData recs (.str key) v
        = .ok (storePut "key" recs [("key", .str key), ("value", v)]) ∧
      getData (storePut "key" recs [("key", .str key), ("value", v)]) (.str key)
        = .ok (some v)) ∧
    (setData recs (.str key) .undefined = .ok (storeDelete "key" recs (.str key)) ∧
      getData (storeDelete "key" recs (.str key)) (.str key) = .ok none) := by
  have hrowkey : storeKey "key" [("key", Value.str key), ("value", v)] = some (.str key) := by
    unfold storeKey
    rw [getField_cons_pos _ _ _ rfl]
    rfl
  refine ⟨⟨?_, ?_⟩, ?_, ?_⟩
  · unfold setData
    simp [valueToKey, hv]
  · unfold getData
    simp only [valueToKey]
    rw [storeGet_storePut_self "key" recs _ _ hrowkey]
    have hval : getField [("key", Value.str key), ("value", v)] "value" = v := by
      rw [getField_cons_neg ("key", Value.str key) _ "value" (by simp)]
      exact getField_cons_pos _ _ _ rfl
    simp [hval]
  · unfold setData
    simp [valueToKey, looseEq]
  · unfold getData
    simp only [valueToKey]
    rw [storeGet_storeDelete_self "key" recs (.str key)]
    rfl

/-- Witness for `setData_getData_roundtrip` at a concrete key and value. -/
theorem setData_getData_roundtrip_witness :
    (setData [] (.str "hello") (.str "world")
        = .ok (storePut "key" [] [("key", .str "hello"), ("value", .str "world")]) ∧
      getData (storePut "key" [] [("key", .str "hello"), ("value", .str "world")])
          (.str "hello") = .ok (some (.str "world"))) ∧
    (setData [] (.str "hello") Value.undefined = .ok (storeDelete "key" [] (.str "hello")) ∧
      getData (storeDelete "key" [] (.str "hello")) (.str "hello") = .ok none) :=
  setData_getData_roundtrip [] "hello" (.str "world") (by decide)

/-- C6: evaluating the soft-delete batch path at a store holding the
single record `a` and the id list `["a"]`: the record is stamped and
written back, but the resolved flag list is `new Array().fill(true, 0,
targets.length - 1)`, a fill over an empty array — the call resolves `[]`,
not one success flag per processed id. -/
theorem removeMany_soft_flags_empty :
    removeRecords [[("id", Value.str "a")]] true "deletedTimestamp" 100 ["a"] false
      = .ok ([], [[("id", Value.str "a"), ("deletedTimestamp", Value.num 100)]]) ∧
    ([] : List Bool).length ≠ (["a"] : List String).length := by
  exact ⟨rfl, by decide⟩

/-- C7: evaluating the schema compiler: the token `"!userId"` yields an
index whose name has the marker stripped but whose key path is still the
literal `"!userId"` (marker not stripped from the key path, so the index
tracks a field no record carries); the composite token `"[a+b]"` yields
the composite index over `a` and `b` plus one implicit single-field index
per constituent. -/
theorem schema_unique_marker_keyPath :
    createStoreIndexes ["id", "!userId"]
      = [{ name := "userId", keyPath := .inl "!userId", unique := true, multiEntry := true }] ∧
    (Sum.inl "!userId" : KeyPath) ≠ Sum.inl "userId" ∧
    createStoreIndexes ["id", "[a+b]"]
      = [{ name := "a+b", keyPath := .inr ["a", "b"], unique := false, multiEntry := false },
         { name := "a", keyPath := .inl "a", unique := false, multiEntry := true },
         { name := "b", keyPath := .inl "b", unique := false, multiEntry := true }] := by
  exact ⟨rfl, by decide, rfl⟩

/-- C9: evaluating `setKeys` on an empty store with keys `["a", "b"]`: the
two key rows are stored (a fresh `getKeys` with no explicit keys lists
exactly them), but `setKeys` itself resolves `[]`, because its read-back
calls `getKeys` with the collected key list, which passes that whole list
as one array key to a point `get` that can never match a string-keyed
row. -/
theorem setKeys_resolves_empty :
    (setKeys [] ["a", "b"]).1 = .ok [] ∧
    getKeys (setKeys [] ["a", "b"]).2 [] = .ok [Value.str "a", Value.str "b"] ∧
    ([] : List Value) ≠ [Value.str "a", Value.str "b"] := by
  exact ⟨rfl, rfl, by decide⟩

/-- C1 counterexample: a store whose only record has field `f` holding the
string `"5"`, queried with the predicate mapping `f` to the number `5`:
the record loosely equals the predicate value (cross-type coercion), yet
`query` resolves the empty list — the cursor range matches engine keys
exactly, not loosely, refuting the claim as stated. -/
theorem query_loose_equality_counterexample :
    query [("f", Sum.inl "f")] [[("id", Value.str "a"), ("f", Value.str "5")]]
        [("f", PredValue.scalar (Value.num 5))] none = .ok [] ∧
    looseEq (getField [("id", Value.str "a"), ("f", Value.str "5")] "f") (Value.num 5)
      = true := by
  exact ⟨rfl, rfl⟩

/-- C2 counterexample: one record with `f1 = "x"`, `f2 = "5"` queried with
the predicate mapping `f1` to `"x"` and `f2` to the number `5`: with the
composite index `f1+f2` present the query resolves `[]` (array-key
matching is exact), while the fallback store without it resolves the
record (residual filtering on `f2` is loosely coercive) — the two paths do
not yield identical result sets, refuting the claim as stated. -/
theorem query_fallback_counterexample :
    query [("f1+f2", Sum.inr ["f1", "f2"]), ("f1", Sum.inl "f1")]
        [[("id", Value.str "a"), ("f1", Value.str "x"), ("f2", Value.str "5")]]
        [("f1", PredValue.scalar (Value.str "x")), ("f2", PredValue.scalar (Value.num 5))] none
      = .ok [] ∧
    query [("f1", Sum.inl "f1")]
        [[("id", Value.str "a"), ("f1", Value.str "x"), ("f2", Value.str "5")]]
        [("f1", PredValue.scalar (Value.str "x")), ("f2", PredValue.scalar (Value.num 5))] none
      = .ok [[("id", Value.str "a"), ("f1", Value.str "x"), ("f2", Value.str "5")]] := by
  exact ⟨rfl, rfl⟩

/-- A single-field scalar query resolves the records whose field carries
exactly the predicate value's engine key. -/
theorem query_single_scalar_eq (indexes : List (String × KeyPath)) (recs : List Record)
    (f : String) (v : Value) (k : SKey)
    (hidx : f = "id" ∨ lookupIndex indexes f = some (.inl f))
    (hv : valueToKey v = some k) :
    query indexes recs [(f, .scalar v)] none
      = .ok (recs.filter (fun r => valueToKey (getField r f) = some k)) := by
  have hkp : (if f = "id" then some (Sum.inl "id" : KeyPath) else lookupIndex indexes f)
      = some (.inl f) := by
    by_cases hf : f = "id"
    · subst hf; rw [if_pos rfl]
    · rw [if_neg hf]; exact hidx.resolve_left hf
  unfold query
  simp only [List.isEmpty_nil, List.map_cons, List.map_nil, if_true]
  rw [hkp, hv]
  simp only [finishSort, scalarKeyMatch, residualOk, List.all_nil, List.filter_true]

/-- C1 (amended): for a single-field scalar predicate on an indexed field
whose value `v` is a valid engine key `k`, `query` resolves exactly the
set of records whose field holds that key — engine key equality
(type-sensitive), not loose coercive equality — and, with no sort key, the
result is independent of the cursor traversal order: permuting the store
permutes the result set. -/
theorem query_single_scalar_amended (indexes : List (String × KeyPath))
    (recs : List Record) (f : String) (v : Value) (k : SKey)
    (hidx : f = "id" ∨ lookupIndex indexes f = some (.inl f))
    (hv : valueToKey v = some k) :
    query indexes recs [(f, .scalar v)] none
      = .ok (recs.filter (fun r => valueToKey (getField r f) = some k)) ∧
    ∀ recs' : List Record, recs.Perm recs' →
      ∃ l', query indexes recs' [(f, .scalar v)] none = .ok l' ∧
        (recs.filter (fun r => valueToKey (getField r f) = some k)).Perm l' := by
  refine ⟨query_single_scalar_eq indexes recs f v k hidx hv, ?_⟩
  intro recs' hperm
  exact ⟨_, query_single_scalar_eq indexes recs' f v k hidx hv, hperm.filter _⟩

/-- Witness for `query_single_scalar_amended` at a concrete store and
predicate. -/
theorem query_single_scalar_amended_witness :
    query [("f", Sum.inl "f")]
        [[("id", Value.str "a"), ("f", Value.num 7)], [("id", Value.str "b"), ("f", Value.num 8)]]
        [("f", PredValue.scalar (Value.num 7))] none
      = .ok ([[("id", Value.str "a"), ("f", Value.num 7)],
              [("id", Value.str "b"), ("f", Value.num 8)]].filter
          (fun r => valueToKey (getField r "f") = some (.num 7))) ∧
    ∀ recs' : List Record,
      ([[("id", Value.str "a"), ("f", Value.num 7)],
        [("id", Value.str "b"), ("f", Value.num 8)]] : List Record).Perm recs' →
      ∃ l', query [("f", Sum.inl "f")] recs' [("f", PredValue.scalar (Value.num 7))] none
          = .ok l' ∧
        (([[("id", Value.str "a"), ("f", Value.num 7)],
           [("id", Value.str "b"), ("f", Value.num 8)]] : List Record).filter
          (fun r => valueToKey (getField r "f") = some (.num 7))).Perm l' :=
  query_single_scalar_amended [("f", Sum.inl "f")]
    [[("id", Value.str "a"), ("f", Value.num 7)], [("id", Value.str "b"), ("f", Value.num 8)]]
    "f" (Value.num 7) (.num 7) (Or.inr rfl) rfl

/-- A two-field composite scan seeded with scalar keys keeps exactly the
records carrying both keys. -/
theorem combinedScan_two (f1 f2 : String) (k1 k2 : SKey) (recs : List Record) :
    combinedScan (.inr [f1, f2]) [Sum.inl k1, Sum.inl k2] recs
      = recs.filter (fun r =>
          valueToKey (getField r f1) = some k1 ∧ valueToKey (getField r f2) = some k2) := by
  unfold combinedScan
  apply List.filter_congr
  intro r _
  cases h1 : valueToKey (getField r f1) <;> cases h2 : valueToKey (getField r f2) <;>
    simp [compositeKeyOf, seekMatches, kelemEq, h1, h2, eq_comm]

/-- The residual check over a single scalar entry is the loose comparison
of that field. -/
theorem residualOk_single (r : Record) (f : String) (v : Value) :
    residualOk r [(f, .scalar v)] = looseEq (getField r f) v := by
  simp [residualOk]

/-- C2 (amended): for a two-field scalar predicate whose values are valid
engine keys: with a composite index named `f1+f2` present, `query`
resolves exactly the records carrying both engine keys; without it, the
engine silently falls back to a scan of `f1`'s single-field index plus
residual loose filtering on `f2`.  The fallback result set contains the
composite result set, and the two coincide whenever every record whose
`f2` value loosely equals `v2` also carries `v2`'s engine key (in
particular for type-consistent data) — but not in general, since the
residual filter is loosely coercive while the composite seed is exact. -/
theorem query_two_field_amended (idxA idxB : List (String × KeyPath))
    (recs : List Record) (f1 f2 : String) (v1 v2 : Value) (k1 k2 : SKey)
    (hA : lookupIndex idxA (joinPlus [f1, f2]) = some (.inr [f1, f2]))
    (hB : lookupIndex idxB (joinPlus [f1, f2]) = none)
    (hB1 : f1 = "id" ∨ lookupIndex idxB f1 = some (.inl f1))
    (hv1 : valueToKey v1 = some k1) (hv2 : valueToKey v2 = some k2) :
    query idxA recs [(f1, .scalar v1), (f2, .scalar v2)] none
      = .ok (recs.filter (fun r =>
          valueToKey (getField r f1) = some k1 ∧ valueToKey (getField r f2) = some k2)) ∧
    query idxB recs [(f1, .scalar v1), (f2, .scalar v2)] none
      = .ok ((recs.filter (fun r => valueToKey (getField r f1) = some k1)).filter
          (fun r => looseEq (getField r f2) v2)) ∧
    (∀ r ∈ recs.filter (fun r =>
          valueToKey (getField r f1) = some k1 ∧ valueToKey (getField r f2) = some k2),
        r ∈ (recs.filter (fun r => valueToKey (getField r f1) = some k1)).filter
          (fun r => looseEq (getField r f2) v2)) ∧
    ((∀ r ∈ recs, looseEq (getField r f2) v2 = true → valueToKey (getField r f2) = some k2) →
      recs.filter (fun r =>
          valueToKey (getField r f1) = some k1 ∧ valueToKey (getField r f2) = some k2)
        = (recs.filter (fun r => valueToKey (getField r f1) = some k1)).filter
            (fun r => looseEq (getField r f2) v2)) := by
  refine ⟨?_, ?_, ?_, ?_⟩
  · unfold query
    simp only [List.isEmpty_cons, List.map_cons, List.map_nil]
    rw [if_neg (by simp), hA]
    simp only [seekOfPredValues, predValueToKElem, hv1, hv2, Option.map_some']
    rw [combinedScan_two f1 f2 k1 k2 recs]
    simp only [finishSort]
    congr 1
    apply List.filter_eq_self.mpr
    intro r hr
    have hk2 : valueToKey (getField r f2) = some k2 := by
      have := (List.mem_filter.mp hr).2
      simp only [decide_eq_true_eq] at this
      exact this.2
    rw [residualOk_single]
    exact looseEq_of_valueToKey_eq _ _ k2 hk2 hv2
  · have hkp : (if f1 = "id" then some (Sum.inl "id" : KeyPath) else lookupIndex idxB f1)
        = some (.inl f1) := by
      by_cases hf : f1 = "id"
      · subst hf; rw [if_pos rfl]
      · rw [if_neg hf]; exact hB1.resolve_left hf
    unfold query
    simp only [List.isEmpty_cons, List.map_cons, List.map_nil]
    rw [if_neg (by simp), hB, hkp, hv1]
    simp only [finishSort, scalarKeyMatch]
    congr 1
    apply List.filter_congr
    intro r _
    exact residualOk_single r f2 v2
  · intro r hr
    rw [List.mem_filter] at hr
    have hconj := hr.2
    simp only [decide_eq_true_eq] at hconj
    rw [List.mem_filter, List.mem_filter]
    refine ⟨⟨hr.1, by simp [hconj.1]⟩, ?_⟩
    exact looseEq_of_valueToKey_eq _ _ k2 hconj.2 hv2
  · intro hcoh
    rw [List.filter_filter]
    apply List.filter_congr
    intro r hr
    by_cases h1 : valueToKey (getField r f1) = some k1 <;>
      by_cases h2 : valueToKey (getField r f2) = some k2
    · simp [h1, h2, looseEq_of_valueToKey_eq _ _ k2 h2 hv2]
    · have : looseEq (getField r f2) v2 = false := by
        cases hl : looseEq (getField r f2) v2
        · rfl
        · exact absurd (hcoh r hr hl) h2
      simp [h1, h2, this]
    · simp [h1, h2]
    · simp [h1, h2]

/-- Witness for `query_two_field_amended` at concrete stores sharing one
record. -/
theorem query_two_field_amended_witness :
    query [("f1+f2", Sum.inr ["f1", "f2"])]
        [[("id", Value.str "a"), ("f1", Value.str "x"), ("f2", Value.num 5)]]
        [("f1", PredValue.scalar (Value.str "x")), ("f2", PredValue.scalar (Value.num 5))] none
      = .ok ([[("id", Value.str "a"), ("f1", Value.str "x"), ("f2", Value.num 5)]].filter
          (fun r => valueToKey (getField r "f1") = some (.str "x") ∧
            valueToKey (getField r "f2") = some (.num 5))) ∧
    query [("f1", Sum.inl "f1")]
        [[("id", Value.str "a"), ("f1", Value.str "x"), ("f2", Value.num 5)]]
        [("f1", PredValue.scalar (Value.str "x")), ("f2", PredValue.scalar (Value.num 5))] none
      = .ok (([[("id", Value.str "a"), ("f1", Value.str "x"), ("f2", Value.num 5)]].filter
          (fun r => valueToKey (getField r "f1") = some (.str "x"))).filter
          (fun r => looseEq (getField r "f2") (Value.num 5))) ∧
    (∀ r ∈ ([[("id", Value.str "a"), ("f1", Value.str "x"), ("f2", Value.num 5)]] :
          List Record).filter
          (fun r => valueToKey (getField r "f1") = some (.str "x") ∧
            valueToKey (getField r "f2") = some (.num 5)),
        r ∈ (([[("id", Value.str "a"), ("f1", Value.str "x"), ("f2", Value.num 5)]] :
            List Record).filter
          (fun r => valueToKey (getField r "f1") = some (.str "x"))).filter
          (fun r => looseEq (getField r "f2") (Value.num 5))) ∧
    ((∀ r ∈ ([[("id", Value.str "a"), ("f1", Value.str "x"), ("f2", Value.num 5)]] :
          List Record), looseEq (getField r "f2") (Value.num 5) = true →
            valueToKey (getField r "f2") = some (.num 5)) →
      ([[("id", Value.str "a"), ("f1", Value.str "x"), ("f2", Value.num 5)]] :
          List Record).filter
          (fun r => valueToKey (getField r "f1") = some (.str "x") ∧
            valueToKey (getField r "f2") = some (.num 5))
        = (([[("id", Value.str "a"), ("f1", Value.str "x"), ("f2", Value.num 5)]] :
            List Record).filter
          (fun r => valueToKey (getField r "f1") = some (.str "x"))).filter
          (fun r => looseEq (getField r "f2") (Value.num 5))) :=
  query_two_field_amended [("f1+f2", Sum.inr ["f1", "f2"])] [("f1", Sum.inl "f1")]
    [[("id", Value.str "a"), ("f1", Value.str "x"), ("f2", Value.num 5)]]
    "f1" "f2" (Value.str "x") (Value.num 5) (.str "x") (.num 5)
    rfl rfl (Or.inr rfl) rfl rfl

end RecordSetter
